import Mathlib

/-!
# rpk `cluster metadata`: section selection and rendering

A shallow embedding of `src/go/rpk/pkg/cli/cmd/cluster/metadata.go`:
the flag resolution and the section printing of `NewMetadataCommand.Run`,
`printBrokers`, `PrintTopics` and `int32s.sort`.

Conventions of the embedding

* Go `int32`/`int16`/`int` values are `Int`; no arithmetic is done on them.
* A Go pointer `*string` is an `Option String`: `none` is `nil`.
* A run-time panic (dereferencing a `nil` pointer) is the result `none`.
* Standard output is a list of `Out` items, one per finished line or
  flushed table.
* `sort.Slice` is embedded as an insertion sort driven by the `less`
  closure of the call site.  Go leaves the relative order of elements with
  equal keys open; for pairwise distinct keys the outcome is the unique
  ascending arrangement.
-/

namespace Cluster

/-! ## Data model (package kmsg, as far as the command reads it) -/

/-- Go `kmsg.MetadataResponseBroker`. -/
structure MetadataResponseBroker where
  NodeID : Int
  Host : String
  Port : Int
  Rack : Option String
  deriving DecidableEq, Repr

/-- Go `kmsg.MetadataResponseTopicPartition`. -/
structure MetadataResponseTopicPartition where
  ErrorCode : Int
  Partition : Int
  Leader : Int
  LeaderEpoch : Int
  Replicas : List Int
  OfflineReplicas : List Int
  deriving DecidableEq, Repr

/-- Go `kmsg.MetadataResponseTopic`; `Topic` is a `*string`. -/
structure MetadataResponseTopic where
  Topic : Option String
  IsInternal : Bool
  Partitions : List MetadataResponseTopicPartition
  deriving DecidableEq, Repr

/-- Go `kmsg.MetadataResponse`. -/
structure MetadataResponse where
  ClusterID : Option String
  ControllerID : Int
  Brokers : List MetadataResponseBroker
  Topics : List MetadataResponseTopic
  deriving DecidableEq, Repr

/-- Go `kmsg.MetadataRequestTopic`; `Topic` is a `*string`. -/
structure MetadataRequestTopic where
  Topic : Option String
  deriving DecidableEq, Repr

/-- Go `kmsg.MetadataRequest`; `Topics = none` is the nil slice (all topics),
`some []` the empty non-nil slice (no topics). -/
structure MetadataRequest where
  Topics : Option (List MetadataRequestTopic)
  deriving DecidableEq, Repr

/-! ## Output model -/

/-- A value of type `interface{}` handed to a table, tagged with its dynamic
Go type. -/
inductive Cell where
  | int32 (v : Int)
  | int (v : Int)
  | str (s : String)
  | strPtr (p : Option String)
  | int32s (l : List Int)
  | err (msg : String)
  deriving DecidableEq, Repr

/-- Modelled from the spec: package `out` (`NewTable`, `NewTableTo`, `Print`,
`Flush`) is not among the sources; a table is kept as the header list it was
created with and the rows handed to it, in order. -/
structure TabWriter where
  headers : List String
  rows : List (List Cell)
  deriving DecidableEq, Repr

/-- Modelled from the spec: `out.NewTable(headers...)` / `out.NewTableTo`. -/
def NewTable (headers : List String) : TabWriter :=
  { headers := headers, rows := [] }

/-- Modelled from the spec: `tw.Print(args...)` appends one row. -/
def TabWriter.Print (tw : TabWriter) (args : List Cell) : TabWriter :=
  { tw with rows := tw.rows ++ [args] }

/-- One item written to the output: a line of text (without its newline) or
a flushed table. -/
inductive Out where
  | line (s : String)
  | table (tw : TabWriter)
  deriving DecidableEq, Repr

/-! ## Sorting helpers -/

/-- Insert `a` into an arranged list: `a` passes every `b` with `less b a`. -/
def orderedInsert {α : Type} (less : α → α → Bool) (a : α) : List α → List α
  | [] => [a]
  | b :: l => if less b a then b :: orderedInsert less a l else a :: b :: l

/-- Go `sort.Slice(xs, less)` for a `less` that cannot fail. -/
def sortSlice {α : Type} (less : α → α → Bool) : List α → List α
  | [] => []
  | a :: l => orderedInsert less a (sortSlice less l)

/-- Insertion with a `less` that may panic. -/
def orderedInsertM {α : Type} (less : α → α → Option Bool) (a : α) :
    List α → Option (List α)
  | [] => some [a]
  | b :: l =>
    match less b a with
    | none => none
    | some true => (orderedInsertM less a l).map (fun r => b :: r)
    | some false => some (a :: b :: l)

/-- Go `sort.Slice(xs, less)` for a `less` that may panic; with fewer than
two elements `less` is never called. -/
def sortSliceM {α : Type} (less : α → α → Option Bool) : List α → Option (List α)
  | [] => some []
  | a :: l => (sortSliceM less l).bind (orderedInsertM less a)

/-- Go `func (is int32s) sort() []int32`. -/
def int32s.sort (is : List Int) : List Int :=
  sortSlice (fun a b => decide (a < b)) is

/-- Lexicographic comparison of two lists of code points. -/
def lessCodes : List Nat → List Nat → Bool
  | _, [] => false
  | [], _ :: _ => true
  | a :: as, b :: bs =>
    if a < b then true else if b < a then false else lessCodes as bs

/-- Go `a < b` on strings.  Go compares the bytes of the two strings; for
UTF-8 text that is the lexicographic order of the code points. -/
def stringLess (a b : String) : Bool :=
  lessCodes (a.data.map Char.toNat) (b.data.map Char.toNat)

/-- Go `strings.Repeat(s, count)`. -/
def strings.Repeat (s : String) (count : Nat) : String :=
  String.join (List.replicate count s)

/-! ## Flag resolution in `Run` -/

/-- The five boolean flags of the command. -/
structure Flags where
  cluster : Bool
  brokers : Bool
  topics : Bool
  internal : Bool
  detailed : Bool
  deriving DecidableEq, Repr

/-- The counting loop over `[]*bool{&cluster, &brokers, &topics}`. -/
def countRequested (vs : List Bool) : Nat :=
  vs.foldl (fun n v => if v then n + 1 else n) 0

/-- Lines 71-83 of `Run`: the resolved flags and `requestedSections`. -/
def resolveFlags (f : Flags) (args : List String) : Flags × Nat :=
  let requestedSections := countRequested [f.cluster, f.brokers, f.topics]
  let f1 : Flags :=
    if decide (args.length > 0) || f.detailed || f.internal then
      { f with topics := true }
    else f
  if requestedSections == 0 then
    ({ f1 with cluster := true, brokers := true, topics := true, internal := true }, 4)
  else
    (f1, requestedSections)

/-- Rules 1-4 of section 4.1 of the specification, in the order written
there: the count is taken after topics has been forced. -/
def specResolve (f : Flags) (args : List String) : Flags :=
  let f1 : Flags :=
    { f with topics := f.topics || decide (args ≠ []) || f.detailed || f.internal }
  let count := countRequested [f1.cluster, f1.brokers, f1.topics]
  if count = 0 then
    { f1 with cluster := true, brokers := true, topics := true, internal := true }
  else f1

/-- The closure `header` of `Run`; `fn` is the output of the section body. -/
def header (requestedSections : Nat) (name : String) (fn : Option (List Out)) :
    Option (List Out) :=
  if requestedSections > 1 then
    fn.map (fun body =>
      [Out.line name, Out.line (strings.Repeat "=" name.utf8ByteSize)] ++ body ++ [Out.line ""])
  else fn

/-- Go `append(req.Topics, reqTopic)` on a slice that may be nil: the result
is never nil. -/
def appendTopic (ts : Option (List MetadataRequestTopic)) (t : MetadataRequestTopic) :
    Option (List MetadataRequestTopic) :=
  match ts with
  | none => some [t]
  | some l => some (l ++ [t])

/-- Lines 96-108 of `Run`: the metadata request; a fresh request carries the
nil topic list, and the loop appends one request topic per argument. -/
def buildRequest (topics : Bool) (args : List String) : MetadataRequest :=
  if args.length > 0 then
    { Topics := args.foldl (fun ts topic => appendTopic ts { Topic := some topic }) none }
  else if !topics then
    { Topics := some [] }
  else
    { Topics := none }

/-! ## `printBrokers` -/

/-- The `less` closure of the broker sort. -/
def brokerLess (a b : MetadataResponseBroker) : Bool :=
  decide (a.NodeID < b.NodeID)

/-- The first `args` closure of `printBrokers`. -/
def brokerArgs (controllerID : Int) (b : MetadataResponseBroker) : List Cell :=
  let ret := [Cell.int32 b.NodeID, Cell.str b.Host, Cell.int32 b.Port]
  if b.NodeID = controllerID then
    ret.set 0 (Cell.str (toString b.NodeID ++ "*"))
  else ret

/-- The loop "Rack is included if any broker has a rack": at the first broker
with a rack the header and the wrapped closure are installed and the loop
breaks. -/
def rackScan (headers : List String) (args : MetadataResponseBroker → List Cell) :
    List MetadataResponseBroker →
      List String × (MetadataResponseBroker → List Cell)
  | [] => (headers, args)
  | b :: rest =>
    if b.Rack != none then
      (headers ++ ["RACK"],
        fun b =>
          let rack : String := match b.Rack with
            | some r => r
            | none => ""
          args b ++ [Cell.str rack])
    else rackScan headers args rest

/-- Go `printBrokers(controllerID, brokers)`: the table that is flushed. -/
def printBrokersTable (controllerID : Int) (brokers : List MetadataResponseBroker) :
    TabWriter :=
  let brokers := sortSlice brokerLess brokers
  let scan := rackScan ["ID", "HOST", "PORT"] (brokerArgs controllerID) brokers
  brokers.foldl (fun tw broker => tw.Print (scan.2 broker)) (NewTable scan.1)

/-- Go `printBrokers(controllerID, brokers)`. -/
def printBrokers (controllerID : Int) (brokers : List MetadataResponseBroker) :
    List Out :=
  [Out.table (printBrokersTable controllerID brokers)]

/-! ## `PrintTopics` -/

/-- The `less` closure of the partition sort. -/
def partitionLess (a b : MetadataResponseTopicPartition) : Bool :=
  decide (a.Partition < b.Partition)

/-- The `less` closure of the topic sort: both names are dereferenced. -/
def topicLess (a b : MetadataResponseTopic) : Option Bool :=
  match a.Topic, b.Topic with
  | some x, some y => some (stringLess x y)
  | _, _ => none

/-- The row printed in summary mode for one topic (lines 194-199); the first
cell is the pointer `topic.Topic` as the code passes it. -/
def summaryRow (topic : MetadataResponseTopic) : List Cell :=
  let parts := topic.Partitions.length
  let replicas : Nat :=
    match topic.Partitions with
    | [] => 0
    | p :: _ => p.Replicas.length
  [Cell.strPtr topic.Topic, Cell.int parts, Cell.int replicas]

/-- The summary loop (lines 190-200). -/
def summaryLoop (internal : Bool) : List MetadataResponseTopic → TabWriter → TabWriter
  | [], tw => tw
  | topic :: rest, tw =>
    if !internal && topic.IsInternal then summaryLoop internal rest tw
    else summaryLoop internal rest (tw.Print (summaryRow topic))

/-- The three column switches of a topic in detailed mode. -/
structure ColumnUse where
  useEpoch : Bool
  useOffline : Bool
  useErr : Bool
  deriving DecidableEq, Repr

/-- The scan of lines 229-241. -/
def scanColumns (ps : List MetadataResponseTopicPartition) : ColumnUse :=
  ps.foldl
    (fun (u : ColumnUse) (p : MetadataResponseTopicPartition) =>
      { useEpoch := if p.LeaderEpoch != -1 then true else u.useEpoch,
        useOffline := if decide (p.OfflineReplicas.length > 0) then true else u.useOffline,
        useErr := if p.ErrorCode != 0 then true else u.useErr })
    { useEpoch := false, useOffline := false, useErr := false }

/-- The header list of lines 246-256. -/
def detailHeaders (u : ColumnUse) : List String :=
  let headers := ["", "partition", "leader"]
  let headers := if u.useEpoch then headers ++ ["epoch"] else headers
  let headers := headers ++ ["replicas"]
  let headers := if u.useOffline then headers ++ ["offline-replicas"] else headers
  if u.useErr then headers ++ ["load-error"] else headers

/-- The `args` closure of lines 258-275; `ErrorForCode` stands for
`kerr.ErrorForCode`, which returns `none` when the code is no error. -/
def partitionArgs (ErrorForCode : Int → Option String) (u : ColumnUse)
    (p : MetadataResponseTopicPartition) : List Cell :=
  let ret := [Cell.str "", Cell.int32 p.Partition, Cell.int32 p.Leader]
  let ret := if u.useEpoch then ret ++ [Cell.int32 p.LeaderEpoch] else ret
  let ret := ret ++ [Cell.int32s (int32s.sort p.Replicas)]
  let ret := if u.useOffline then ret ++ [Cell.int32s (int32s.sort p.OfflineReplicas)] else ret
  if u.useErr then
    match ErrorForCode p.ErrorCode with
    | some err => ret ++ [Cell.err err]
    | none => ret ++ [Cell.str "-"]
  else ret

/-- The header line of a topic in detailed mode (lines 217-225). -/
def topicLine (name : String) (topic : MetadataResponseTopic) : String :=
  let s := name
  let s := if topic.IsInternal then s ++ " (internal)" else s
  let s := s ++ ", " ++ toString topic.Partitions.length ++ " partitions"
  match topic.Partitions with
  | [] => s
  | p :: _ => s ++ ", " ++ toString p.Replicas.length ++ " replicas"

/-- The nested partition table of a topic (lines 229-285). -/
def partitionTable (ErrorForCode : Int → Option String) (topic : MetadataResponseTopic) :
    TabWriter :=
  let u := scanColumns topic.Partitions
  let parts := sortSlice partitionLess topic.Partitions
  parts.foldl (fun tw part => tw.Print (partitionArgs ErrorForCode u part))
    (NewTable (detailHeaders u))

/-- The detailed loop (lines 208-286); `i` is the loop index, `buf` the
buffer written so far. -/
def detailedLoop (ErrorForCode : Int → Option String) (internal : Bool) :
    Nat → List MetadataResponseTopic → List Out → Option (List Out)
  | _, [], buf => some buf
  | i, topic :: rest, buf =>
    if topic.IsInternal && !internal then
      detailedLoop ErrorForCode internal (i + 1) rest buf
    else
      let buf := if i > 0 then buf ++ [Out.line ""] else buf
      match topic.Topic with
      | none => none
      | some name =>
        let buf := buf ++ [Out.line (topicLine name topic)]
        let buf := buf ++ [Out.table (partitionTable ErrorForCode topic)]
        detailedLoop ErrorForCode internal (i + 1) rest buf

/-- Go `PrintTopics(topics, internal, detailed)`. -/
def PrintTopics (ErrorForCode : Int → Option String)
    (topics : List MetadataResponseTopic) (internal detailed : Bool) :
    Option (List Out) :=
  match sortSliceM topicLess topics with
  | none => none
  | some topics =>
    if !detailed then
      some [Out.table
        (summaryLoop internal topics (NewTable ["NAME", "PARTITIONS", "REPLICAS"]))]
    else
      detailedLoop ErrorForCode internal 0 topics []

/-! ## `Run` -/

/-- Lines 113-129 of `Run`: the three sections in their fixed order. -/
def printSections (ErrorForCode : Int → Option String) (r : Flags)
    (requestedSections : Nat) (resp : MetadataResponse) : Option (List Out) :=
  let o1 : Option (List Out) :=
    match r.cluster, resp.ClusterID with
    | true, some id => header requestedSections "CLUSTER" (some [Out.line id])
    | _, _ => some []
  let o2 : Option (List Out) :=
    if r.brokers then
      header requestedSections "BROKERS" (some (printBrokers resp.ControllerID resp.Brokers))
    else some []
  let o3 : Option (List Out) :=
    if r.topics && decide (resp.Topics.length > 0) then
      header requestedSections "TOPICS"
        (PrintTopics ErrorForCode resp.Topics r.internal r.detailed)
    else some []
  match o1, o2, o3 with
  | some a, some b, some c => some (a ++ b ++ c)
  | _, _, _ => none

/-- The `Run` closure of `NewMetadataCommand` from line 66 on; `RequestWith`
stands for the successful round trip `req.RequestWith(ctx, cl)`. -/
def Run (ErrorForCode : Int → Option String)
    (RequestWith : MetadataRequest → MetadataResponse)
    (f : Flags) (args : List String) : Option (List Out) :=
  let rf := resolveFlags f args
  let req := buildRequest rf.1.topics args
  let resp := RequestWith req
  printSections ErrorForCode rf.1 rf.2 resp

/-! ## Section printing in the words of the specification -/

/-- A section as section 4.5 of the specification words it: when `headed`, the
name line, an underline of `=` of the length of the name, the body and a
trailing blank line; the bare body otherwise. -/
def specSection (headed : Bool) (name : String) (body : List Out) : List Out :=
  if headed then
    [Out.line name, Out.line (String.mk (List.replicate name.length '='))] ++ body
      ++ [Out.line ""]
  else body

/-- Section 4.5 of the specification over the resolved flags `r`: the
sections are headed when more than one of the resolved flags cluster, brokers,
topics is true. -/
def specSections (ErrorForCode : Int → Option String) (r : Flags)
    (resp : MetadataResponse) : Option (List Out) :=
  let headed : Bool := decide (1 < countRequested [r.cluster, r.brokers, r.topics])
  let clusterPart : List Out :=
    match r.cluster, resp.ClusterID with
    | true, some id => specSection headed "CLUSTER" [Out.line id]
    | _, _ => []
  let brokersPart : List Out :=
    if r.brokers then
      specSection headed "BROKERS" (printBrokers resp.ControllerID resp.Brokers)
    else []
  if r.topics = true ∧ resp.Topics ≠ [] then
    (PrintTopics ErrorForCode resp.Topics r.internal r.detailed).map
      (fun body => clusterPart ++ brokersPart ++ specSection headed "TOPICS" body)
  else some (clusterPart ++ brokersPart)

/-! ## Notions used in the statements -/

/-- The test "the topic is rendered": not internal, or internal topics are
asked for. -/
def rendered (internal : Bool) (t : MetadataResponseTopic) : Bool :=
  internal || !t.IsInternal

/-- The test "the item is not a blank line". -/
def notBlank (o : Out) : Bool :=
  decide (o ≠ Out.line "")

/-- The `less` of the topic sort on names that are present. -/
def nameLess (a b : MetadataResponseTopic) : Bool :=
  stringLess (a.Topic.getD "") (b.Topic.getD "")

/-- The two items a rendered topic contributes in detailed mode: its header
line and its partition table. -/
def topicBlock (ErrorForCode : Int → Option String) (t : MetadataResponseTopic) :
    List Out :=
  [Out.line (topicLine (t.Topic.getD "") t), Out.table (partitionTable ErrorForCode t)]

/-- The number of replicas of the partition that stands first in the
partition sequence of the topic as received, 0 without partitions. -/
def firstReceivedReplicas (t : MetadataResponseTopic) : Int :=
  match t.Partitions.head? with
  | some p => p.Replicas.length
  | none => 0

/-- The ID cell of a broker carrying the controller marker. -/
def markedID (b : MetadataResponseBroker) : Cell :=
  Cell.str (toString b.NodeID ++ "*")

/-- The test "some broker has a rack". -/
def anyRack (brokers : List MetadataResponseBroker) : Bool :=
  brokers.any (fun b => b.Rack != none)

/-- The cells the rack column adds to a row: none without the column, else
the rack of the broker or the empty string. -/
def rackCells (withRack : Bool) (b : MetadataResponseBroker) : List Cell :=
  if withRack then [Cell.str (b.Rack.getD "")] else []

/-- The cluster section as printed: the cluster identifier line, headed or
not, when show-cluster is true and the response carries an identifier; nothing
otherwise. -/
def clusterSection (headed : Bool) (r : Flags) (resp : MetadataResponse) : List Out :=
  match r.cluster, resp.ClusterID with
  | true, some id => specSection headed "CLUSTER" [Out.line id]
  | _, _ => []

/-- The brokers section as printed: the broker table, headed or not, when
show-brokers is true; nothing otherwise. -/
def brokersSection (headed : Bool) (r : Flags) (resp : MetadataResponse) : List Out :=
  if r.brokers then
    specSection headed "BROKERS" (printBrokers resp.ControllerID resp.Brokers)
  else []

/-! ## Concrete inputs used by the evaluations below -/

/-- The request flags of `rpk cluster metadata -d`. -/
def flagsDetailedOnly : Flags :=
  { cluster := false, brokers := false, topics := false, internal := false, detailed := true }

/-- The request flags of `rpk cluster metadata -c -d`. -/
def flagsClusterDetailed : Flags :=
  { cluster := true, brokers := false, topics := false, internal := false, detailed := true }

/-- The request flags of `rpk cluster metadata` without any flag. -/
def flagsNone : Flags :=
  { cluster := false, brokers := false, topics := false, internal := false, detailed := false }

/-- An error-code lookup that knows code 0 (no error) and code 3. -/
def lookupSample (code : Int) : Option String :=
  if code = 0 then none
  else if code = 3 then some "UNKNOWN_TOPIC_OR_PARTITION"
  else some "UNKNOWN_SERVER_ERROR"

/-- A topic `topic1` with one partition of three replicas. -/
def topicOnePartition : MetadataResponseTopic :=
  { Topic := some "topic1", IsInternal := false,
    Partitions := [{ ErrorCode := 0, Partition := 0, Leader := 1, LeaderEpoch := -1,
                     Replicas := [1, 2, 3], OfflineReplicas := [] }] }

/-- A response with a cluster identifier, one broker and `topic1`. -/
def respFull : MetadataResponse :=
  { ClusterID := some "redpanda.abc", ControllerID := 1,
    Brokers := [{ NodeID := 1, Host := "localhost", Port := 9092, Rack := none }],
    Topics := [topicOnePartition] }

/-- A response without cluster identifier and without topics. -/
def respBrokersOnly : MetadataResponse :=
  { ClusterID := none, ControllerID := 1,
    Brokers := [{ NodeID := 1, Host := "localhost", Port := 9092, Rack := none }],
    Topics := [] }

/-- A topic whose partitions arrive in the order index 1, index 0; the
partition of index 1 has one replica, the partition of index 0 has three. -/
def topicUnordered : MetadataResponseTopic :=
  { Topic := some "topic1", IsInternal := false,
    Partitions :=
      [{ ErrorCode := 0, Partition := 1, Leader := 1, LeaderEpoch := -1,
         Replicas := [1], OfflineReplicas := [] },
       { ErrorCode := 0, Partition := 0, Leader := 1, LeaderEpoch := -1,
         Replicas := [1, 2, 3], OfflineReplicas := [] }] }

/-- The topic of the scenario of section 8: `topic1`, not internal, two
partitions with replicas `[1,2,3]` and `[2,3,1]`. -/
def topicTwoPartitions : MetadataResponseTopic :=
  { Topic := some "topic1", IsInternal := false,
    Partitions :=
      [{ ErrorCode := 0, Partition := 0, Leader := 1, LeaderEpoch := -1,
         Replicas := [1, 2, 3], OfflineReplicas := [] },
       { ErrorCode := 0, Partition := 1, Leader := 2, LeaderEpoch := -1,
         Replicas := [2, 3, 1], OfflineReplicas := [] }] }

/-- An internal topic that sorts before `topic1`. -/
def topicInternal : MetadataResponseTopic :=
  { Topic := some "__consumer_offsets", IsInternal := true, Partitions := [] }

/-- A topic list with an internal topic that sorts first and `topic1`. -/
def topicsMixed : List MetadataResponseTopic :=
  [topicOnePartition, topicInternal]

/-- A response with a cluster identifier and one broker in which the
requested topic does not appear: the topic sequence is empty. -/
def respNoTopics : MetadataResponse :=
  { ClusterID := some "redpanda.abc", ControllerID := 1,
    Brokers := [{ NodeID := 1, Host := "localhost", Port := 9092, Rack := none }],
    Topics := [] }

/-- A partition whose error code 3 the sample lookup knows. -/
def partitionWithError : MetadataResponseTopicPartition :=
  { ErrorCode := 3, Partition := 0, Leader := -1, LeaderEpoch := -1,
    Replicas := [], OfflineReplicas := [] }

/-- The column switches of a topic that shows the load-error column only. -/
def columnsErrOnly : ColumnUse :=
  { useEpoch := false, useOffline := false, useErr := true }

/-- The brokers of the scenario of section 8, received out of order: broker 2
without rack, broker 1 with rack `rack-a`. -/
def brokersRackMixed : List MetadataResponseBroker :=
  [{ NodeID := 2, Host := "host-b", Port := 9093, Rack := none },
   { NodeID := 1, Host := "host-a", Port := 9092, Rack := some "rack-a" }]

/-! ## Flag resolution -/

/-- C1, as stated, fails: with show-detailed as the only request the code
resolves cluster, brokers, topics and internal all to true, whereas the rules
of the specification applied in their written order give topics alone. -/
theorem resolveFlags_lone_detailed_differs :
    (resolveFlags flagsDetailedOnly []).1 =
        { cluster := true, brokers := true, topics := true, internal := true,
          detailed := true } ∧
      specResolve flagsDetailedOnly [] =
        { cluster := false, brokers := false, topics := true, internal := false,
          detailed := true } ∧
      (resolveFlags flagsDetailedOnly []).1 ≠ specResolve flagsDetailedOnly [] := by
  decide

/-- C1, amended: the section count is taken from the flags as the user set
them, before topics is forced.  When none of cluster, brokers, topics is set,
all of cluster, brokers, topics and internal become true, whatever the
arguments and the other two flags; in every other case the resolved flags are
those of the rules of the specification.  A lone show-detailed therefore
yields all four true. -/
theorem resolveFlags_counts_before_forcing (f : Flags) (args : List String) :
    (resolveFlags f args).1 =
        (if (!f.cluster && !f.brokers && !f.topics) = true then
          { f with cluster := true, brokers := true, topics := true, internal := true }
        else specResolve f args) ∧
      (resolveFlags flagsDetailedOnly []).1 =
        { cluster := true, brokers := true, topics := true, internal := true,
          detailed := true } := by
  refine ⟨?_, by decide⟩
  rcases f with ⟨c, b, t, i, d⟩
  cases args <;> cases c <;> cases b <;> cases t <;> cases i <;> cases d <;>
    simp [resolveFlags, specResolve, countRequested]

/-- C2: when none of print-cluster, print-brokers, print-topics is set, the
resolved flags have cluster, brokers, topics and internal all true, for every
value of print-internal-topics and print-detailed-topics and every argument
list. -/
theorem resolveFlags_default_all (f : Flags) (args : List String)
    (hc : f.cluster = false) (hb : f.brokers = false) (ht : f.topics = false) :
    (resolveFlags f args).1.cluster = true ∧ (resolveFlags f args).1.brokers = true ∧
      (resolveFlags f args).1.topics = true ∧ (resolveFlags f args).1.internal = true := by
  rcases f with ⟨c, b, t, i, d⟩
  simp only at hc hb ht
  subst hc hb ht
  cases args <;> cases i <;> cases d <;> simp [resolveFlags, countRequested]

/-- C2 at a concrete input: only topic names are given. -/
theorem resolveFlags_default_all_witness :
    (resolveFlags ⟨false, false, false, false, false⟩ ["foo"]).1.cluster = true ∧
      (resolveFlags ⟨false, false, false, false, false⟩ ["foo"]).1.brokers = true ∧
      (resolveFlags ⟨false, false, false, false, false⟩ ["foo"]).1.topics = true ∧
      (resolveFlags ⟨false, false, false, false, false⟩ ["foo"]).1.internal = true :=
  resolveFlags_default_all ⟨false, false, false, false, false⟩ ["foo"] rfl rfl rfl

/-- C3: a non-empty argument list, print-detailed-topics or
print-internal-topics each force the resolved show-topics flag to true. -/
theorem resolveFlags_topics_implied (f : Flags) (args : List String)
    (h : args ≠ [] ∨ f.detailed = true ∨ f.internal = true) :
    (resolveFlags f args).1.topics = true := by
  rcases f with ⟨c, b, t, i, d⟩
  cases args <;> cases c <;> cases b <;> cases t <;> cases i <;> cases d <;>
    simp_all [resolveFlags, countRequested]

/-- C3 at a concrete input: print-brokers together with one topic name. -/
theorem resolveFlags_topics_implied_witness :
    (["foo"] ≠ ([] : List String) ∨ false = true ∨ false = true) ∧
      (resolveFlags ⟨false, true, false, false, false⟩ ["foo"]).1.topics = true :=
  ⟨Or.inl (by decide),
    resolveFlags_topics_implied ⟨false, true, false, false, false⟩ ["foo"]
      (Or.inl (by decide))⟩

/-! ## Section headers -/

theorem header_eq_specSection (n : Nat) (name : String) (fn : Option (List Out))
    (hlen : strings.Repeat "=" name.utf8ByteSize =
      String.mk (List.replicate name.length '=')) :
    header n name fn = fn.map (specSection (decide (1 < n)) name) := by
  unfold header specSection
  by_cases h : 1 < n
  · have h2 : n > 1 := h
    cases fn <;> simp [h, hlen]
  · have h2 : ¬ n > 1 := h
    cases fn <;> simp [h]

/-- C4, as stated, fails in both directions.  With `-c -d` two sections are
rendered (the cluster line and the topics) and neither carries a header; with
no flag at all and a response without cluster identifier and without topics,
the brokers section is the only one rendered and it carries header, underline
and trailing blank line. -/
theorem Run_header_counterexample :
    (resolveFlags flagsClusterDetailed []).1.cluster = true ∧
      (resolveFlags flagsClusterDetailed []).1.topics = true ∧
      Run lookupSample (fun _ => respFull) flagsClusterDetailed [] =
        some [Out.line "redpanda.abc",
          Out.line "topic1, 1 partitions, 3 replicas",
          Out.table
            { headers := ["", "partition", "leader", "replicas"],
              rows := [[Cell.str "", Cell.int32 0, Cell.int32 1, Cell.int32s [1, 2, 3]]] }] ∧
      Run lookupSample (fun _ => respBrokersOnly) flagsNone [] =
        some [Out.line "BROKERS", Out.line "=======",
          Out.table
            { headers := ["ID", "HOST", "PORT"],
              rows := [[Cell.str "1*", Cell.str "localhost", Cell.int32 9092]] },
          Out.line ""] := by
  decide

theorem underline_CLUSTER :
    strings.Repeat "=" "CLUSTER".utf8ByteSize =
      String.mk (List.replicate "CLUSTER".length '=') := by
  decide

theorem underline_BROKERS :
    strings.Repeat "=" "BROKERS".utf8ByteSize =
      String.mk (List.replicate "BROKERS".length '=') := by
  decide

theorem underline_TOPICS :
    strings.Repeat "=" "TOPICS".utf8ByteSize =
      String.mk (List.replicate "TOPICS".length '=') := by
  decide

theorem printSections_eq_specSections (ErrorForCode : Int → Option String) (r : Flags)
    (rs : Nat) (resp : MetadataResponse)
    (hrs : decide (1 < rs) = decide (1 < countRequested [r.cluster, r.brokers, r.topics])) :
    printSections ErrorForCode r rs resp = specSections ErrorForCode r resp := by
  unfold printSections specSections
  simp only [fun fn => header_eq_specSection rs "CLUSTER" fn underline_CLUSTER,
    fun fn => header_eq_specSection rs "BROKERS" fn underline_BROKERS,
    fun fn => header_eq_specSection rs "TOPICS" fn underline_TOPICS, hrs]
  generalize decide (1 < countRequested [r.cluster, r.brokers, r.topics]) = headed
  generalize specSection headed "CLUSTER" = sc
  generalize specSection headed "BROKERS" = sb
  generalize specSection headed "TOPICS" = st
  rcases resp with ⟨cid, ctl, bs, ts⟩
  rcases r with ⟨c, b, t, i, d⟩
  generalize PrintTopics ErrorForCode ts i d = pt
  cases c <;> cases b <;> cases t <;> cases cid <;> cases ts <;> cases pt <;> simp

theorem resolveFlags_count (f : Flags) (args : List String)
    (h : ¬ (countRequested [f.cluster, f.brokers, f.topics] = 1 ∧ f.topics = false ∧
        (args ≠ [] ∨ f.detailed = true ∨ f.internal = true))) :
    decide (1 < (resolveFlags f args).2) =
      decide (1 < countRequested [(resolveFlags f args).1.cluster,
        (resolveFlags f args).1.brokers, (resolveFlags f args).1.topics]) := by
  rcases f with ⟨c, b, t, i, d⟩
  cases args <;> cases c <;> cases b <;> cases t <;> cases i <;> cases d <;>
    simp_all [resolveFlags, countRequested]

/-- C4, amended: each rendered section is printed with its name line, an
underline of `=` of the same length and a trailing blank line if and only if
more than one of the resolved flags cluster, brokers, topics is true, a
section whose flag is true counting also when it is then skipped (no cluster
identifier, no topic in the response).  This holds for every input except
those in which exactly one section flag is set by the user and topics, not
set, is switched on by arguments, print-detailed-topics or
print-internal-topics; about those inputs nothing is stated. -/
theorem Run_headers_by_resolved_flags (ErrorForCode : Int → Option String)
    (RequestWith : MetadataRequest → MetadataResponse) (f : Flags) (args : List String)
    (h : ¬ (countRequested [f.cluster, f.brokers, f.topics] = 1 ∧ f.topics = false ∧
        (args ≠ [] ∨ f.detailed = true ∨ f.internal = true))) :
    Run ErrorForCode RequestWith f args =
      specSections ErrorForCode (resolveFlags f args).1
        (RequestWith (buildRequest (resolveFlags f args).1.topics args)) := by
  unfold Run
  exact printSections_eq_specSections ErrorForCode _ _ _ (resolveFlags_count f args h)

/-- C4 amended, at a concrete input: `-b -t` on a full response heads both
rendered sections. -/
theorem Run_headers_by_resolved_flags_witness :
    Run lookupSample (fun _ => respFull) ⟨false, true, true, false, false⟩ [] =
      specSections lookupSample (resolveFlags ⟨false, true, true, false, false⟩ []).1
        ((fun _ => respFull)
          (buildRequest (resolveFlags ⟨false, true, true, false, false⟩ []).1.topics [])) :=
  Run_headers_by_resolved_flags lookupSample (fun _ => respFull)
    ⟨false, true, true, false, false⟩ [] (by decide)

/-! ## Sorting: the outcome is a rearrangement -/

theorem orderedInsert_perm {α : Type} (less : α → α → Bool) (a : α) (l : List α) :
    (orderedInsert less a l).Perm (a :: l) := by
  induction l with
  | nil => exact List.Perm.refl _
  | cons b l ih =>
    unfold orderedInsert
    by_cases h : less b a = true
    · rw [if_pos h]
      exact ((List.Perm.cons b ih).trans (List.Perm.swap a b l))
    · rw [if_neg h]

theorem sortSlice_perm {α : Type} (less : α → α → Bool) (xs : List α) :
    (sortSlice less xs).Perm xs := by
  induction xs with
  | nil => exact List.Perm.refl _
  | cons a l ih =>
    unfold sortSlice
    exact (orderedInsert_perm less a _).trans (List.Perm.cons a ih)

theorem orderedInsertM_eq_some {α : Type} (lessM : α → α → Option Bool)
    (less : α → α → Bool) (a : α) (l : List α)
    (h : ∀ b ∈ l, lessM b a = some (less b a)) :
    orderedInsertM lessM a l = some (orderedInsert less a l) := by
  induction l with
  | nil => rfl
  | cons b l ih =>
    have hb : lessM b a = some (less b a) := h b (List.mem_cons_self b l)
    have ih2 := ih (fun c hc => h c (List.mem_cons_of_mem b hc))
    unfold orderedInsertM orderedInsert
    rw [hb]
    cases hl : less b a
    · simp
    · simp [ih2]

theorem sortSliceM_eq_some {α : Type} (lessM : α → α → Option Bool)
    (less : α → α → Bool) (xs : List α)
    (h : ∀ a ∈ xs, ∀ b ∈ xs, lessM a b = some (less a b)) :
    sortSliceM lessM xs = some (sortSlice less xs) := by
  induction xs with
  | nil => rfl
  | cons a l ih =>
    have ih2 := ih (fun x hx y hy =>
      h x (List.mem_cons_of_mem a hx) y (List.mem_cons_of_mem a hy))
    unfold sortSliceM sortSlice
    rw [ih2]
    simp only [Option.some_bind]
    apply orderedInsertM_eq_some
    intro b hb
    have hb2 : b ∈ l := (sortSlice_perm less l).mem_iff.mp hb
    exact h b (List.mem_cons_of_mem a hb2) a (List.mem_cons_self a l)

theorem sortTopics_eq_some (topics : List MetadataResponseTopic)
    (hn : ∀ t ∈ topics, t.Topic ≠ none) :
    sortSliceM topicLess topics = some (sortSlice nameLess topics) := by
  apply sortSliceM_eq_some
  intro a ha b hb
  have h1 := hn a ha
  have h2 := hn b hb
  unfold topicLess nameLess
  cases hx : a.Topic with
  | none => exact absurd hx h1
  | some x =>
    cases hy : b.Topic with
    | none => exact absurd hy h2
    | some y => simp

/-! ## `PrintTopics`: closed forms of the two loops -/

theorem summaryLoop_eq (internal : Bool) (ts : List MetadataResponseTopic) (tw : TabWriter) :
    summaryLoop internal ts tw =
      { headers := tw.headers,
        rows := tw.rows ++ (ts.filter (rendered internal)).map summaryRow } := by
  induction ts generalizing tw with
  | nil => simp [summaryLoop]
  | cons t rest ih =>
    unfold summaryLoop
    by_cases hskip : (!internal && t.IsInternal) = true
    · have hr : rendered internal t = false := by
        unfold rendered
        cases hi : internal <;> cases ht : t.IsInternal <;> simp_all
      rw [if_pos hskip, ih, List.filter_cons_of_neg (by simp [hr])]
    · have hr : rendered internal t = true := by
        unfold rendered
        cases hi : internal <;> cases ht : t.IsInternal <;> simp_all
      rw [if_neg hskip, ih, List.filter_cons_of_pos hr]
      simp [TabWriter.Print]

theorem PrintTopics_summary_eq (ErrorForCode : Int → Option String)
    (topics : List MetadataResponseTopic) (internal : Bool)
    (hn : ∀ t ∈ topics, t.Topic ≠ none) :
    PrintTopics ErrorForCode topics internal false =
      some [Out.table
        { headers := ["NAME", "PARTITIONS", "REPLICAS"],
          rows := ((sortSlice nameLess topics).filter (rendered internal)).map summaryRow }] := by
  unfold PrintTopics
  rw [sortTopics_eq_some topics hn]
  simp [summaryLoop_eq, NewTable]

theorem topicLine_ne_empty (name : String) (t : MetadataResponseTopic) :
    topicLine name t ≠ "" := by
  intro h
  have hl : (topicLine name t).length = 0 := by rw [h]; rfl
  unfold topicLine at hl
  cases hp : t.Partitions with
  | nil =>
    rw [hp] at hl
    simp only [String.length_append] at hl
    have h11 : " partitions".length = 11 := by decide
    omega
  | cons p ps =>
    rw [hp] at hl
    simp only [String.length_append] at hl
    have h9 : " replicas".length = 9 := by decide
    omega

theorem detailedLoop_spec (ErrorForCode : Int → Option String) (internal : Bool)
    (ts : List MetadataResponseTopic) (hn : ∀ t ∈ ts, t.Topic ≠ none) (i : Nat)
    (buf : List Out) :
    ∃ out, detailedLoop ErrorForCode internal i ts buf = some out ∧
      out.filter notBlank =
        buf.filter notBlank ++
          ((ts.filter (rendered internal)).map (topicBlock ErrorForCode)).flatten := by
  induction ts generalizing i buf with
  | nil => exact ⟨buf, rfl, by simp⟩
  | cons t rest ih =>
    have hrest : ∀ t ∈ rest, t.Topic ≠ none :=
      fun x hx => hn x (List.mem_cons_of_mem t hx)
    unfold detailedLoop
    by_cases hskip : (t.IsInternal && !internal) = true
    · rw [if_pos hskip]
      obtain ⟨out, ho, hf⟩ := ih hrest (i + 1) buf
      refine ⟨out, ho, ?_⟩
      have hr : rendered internal t = false := by
        unfold rendered
        cases hi : internal <;> cases ht : t.IsInternal <;> simp_all
      rw [hf, List.filter_cons_of_neg (by simp [hr])]
    · rw [if_neg hskip]
      have hr : rendered internal t = true := by
        unfold rendered
        cases hi : internal <;> cases ht : t.IsInternal <;> simp_all
      cases hname : t.Topic with
      | none => exact absurd hname (hn t (List.mem_cons_self t rest))
      | some name =>
        simp only
        obtain ⟨out, ho, hf⟩ := ih hrest (i + 1)
          ((if i > 0 then buf ++ [Out.line ""] else buf) ++ [Out.line (topicLine name t)]
            ++ [Out.table (partitionTable ErrorForCode t)])
        refine ⟨out, ho, ?_⟩
        rw [hf, List.filter_cons_of_pos hr]
        have hline : notBlank (Out.line (topicLine name t)) = true := by
          simp [notBlank, topicLine_ne_empty]
        have htab : notBlank (Out.table (partitionTable ErrorForCode t)) = true := by
          simp [notBlank]
        have hblank : notBlank (Out.line "") = false := by
          simp [notBlank]
        by_cases hi : i > 0
        · simp [hi, List.filter_append, hline, htab, hblank, topicBlock, hname, List.filter_cons]
        · simp [hi, List.filter_append, hline, htab, topicBlock, hname, List.filter_cons]

/-! ## `PrintTopics`: summary mode -/

theorem summaryRow_replicas (t : MetadataResponseTopic) :
    (summaryRow t).get? 2 = some (Cell.int (firstReceivedReplicas t)) := by
  unfold summaryRow firstReceivedReplicas
  cases t.Partitions <;> simp

/-- C5, as stated, fails: for a topic whose partitions arrive in the order
index 1 (one replica), index 0 (three replicas), the summary row shows the
replica count 1, whereas the partition of smallest index has 3 replicas. -/
theorem PrintTopics_summary_replicas_counterexample :
    PrintTopics lookupSample [topicUnordered] false false =
        some [Out.table
          { headers := ["NAME", "PARTITIONS", "REPLICAS"],
            rows := [[Cell.strPtr (some "topic1"), Cell.int 2, Cell.int 1]] }] ∧
      ((sortSlice partitionLess topicUnordered.Partitions).head?.map
        (fun p => p.Replicas.length)) = some 3 := by
  decide

/-- C5, amended: in summary mode the replica count in the row of every
rendered topic is the length of the replica list of the partition that stands
first in the partition sequence of the topic as received (summary mode does not
sort the partitions), and 0 for a topic without partitions.  The topic names
are taken to be present. -/
theorem PrintTopics_summary_replicas_first_received
    (ErrorForCode : Int → Option String) (topics : List MetadataResponseTopic)
    (internal : Bool) (hn : ∀ t ∈ topics, t.Topic ≠ none) :
    ∃ rows, PrintTopics ErrorForCode topics internal false =
        some [Out.table { headers := ["NAME", "PARTITIONS", "REPLICAS"], rows := rows }] ∧
      List.Forall₂ (fun row t => row.get? 2 = some (Cell.int (firstReceivedReplicas t)))
        rows ((sortSlice nameLess topics).filter (rendered internal)) := by
  refine ⟨_, PrintTopics_summary_eq ErrorForCode topics internal hn, ?_⟩
  rw [List.forall₂_map_left_iff, List.forall₂_same]
  intro t _
  exact summaryRow_replicas t

/-- C5 amended, at a concrete input: the topic with partitions received in
the order index 1, index 0. -/
theorem PrintTopics_summary_replicas_first_received_witness :
    (∀ t ∈ [topicUnordered], t.Topic ≠ none) ∧
      ∃ rows, PrintTopics lookupSample [topicUnordered] false false =
          some [Out.table { headers := ["NAME", "PARTITIONS", "REPLICAS"], rows := rows }] ∧
        List.Forall₂ (fun row t => row.get? 2 = some (Cell.int (firstReceivedReplicas t)))
          rows ((sortSlice nameLess [topicUnordered]).filter (rendered false)) :=
  ⟨by decide,
    PrintTopics_summary_replicas_first_received lookupSample [topicUnordered] false
      (by decide)⟩

/-- C7: for the topic `topic1` of the scenario (two partitions, replicas
`[1,2,3]` and `[2,3,1]`) the first cell handed to the table in summary mode is
the pointer `topic.Topic`, a `*string`, not the name string; the other two
cells are 2 and 3. -/
theorem PrintTopics_summary_name_cell_is_pointer :
    PrintTopics lookupSample [topicTwoPartitions] true false =
        some [Out.table
          { headers := ["NAME", "PARTITIONS", "REPLICAS"],
            rows := [[Cell.strPtr (some "topic1"), Cell.int 2, Cell.int 3]] }] ∧
      [Cell.strPtr (some "topic1"), Cell.int 2, Cell.int 3] ≠
        [Cell.str "topic1", Cell.int 2, Cell.int 3] := by
  decide

/-! ## `PrintTopics`: detailed mode -/

/-- C6: with an internal topic sorted first and skipped, the detailed output
for the single rendered topic begins with a blank line. -/
theorem PrintTopics_detailed_leading_blank :
    PrintTopics lookupSample topicsMixed false true =
      some [Out.line "",
        Out.line "topic1, 1 partitions, 3 replicas",
        Out.table
          { headers := ["", "partition", "leader", "replicas"],
            rows := [[Cell.str "", Cell.int32 0, Cell.int32 1, Cell.int32s [1, 2, 3]]] }] := by
  decide

theorem PrintTopics_detailed_eq (ErrorForCode : Int → Option String)
    (topics : List MetadataResponseTopic) (internal : Bool)
    (hn : ∀ t ∈ topics, t.Topic ≠ none) :
    ∃ out, PrintTopics ErrorForCode topics internal true = some out ∧
      out.filter notBlank =
        (((sortSlice nameLess topics).filter (rendered internal)).map
          (topicBlock ErrorForCode)).flatten := by
  have hs : ∀ t ∈ sortSlice nameLess topics, t.Topic ≠ none :=
    fun t ht => hn t ((sortSlice_perm nameLess topics).mem_iff.mp ht)
  obtain ⟨out, ho, hf⟩ := detailedLoop_spec ErrorForCode internal _ hs 0 []
  refine ⟨out, ?_, by simpa using hf⟩
  unfold PrintTopics
  rw [sortTopics_eq_some topics hn]
  simpa using ho

/-- C8: in both modes the rendered topics are exactly the input topics that
are not internal or for which the internal flag is true, in sorted order.  In
summary mode the rows are the rows of these topics; in detailed mode the
output, blank separator lines apart, is the header line and the partition
table of each of these topics; a topic is among them if and only if it is in
the input and (internal or not IsInternal), with its multiplicity.  The topic
names are taken to be present. -/
theorem PrintTopics_renders_exactly (ErrorForCode : Int → Option String)
    (topics : List MetadataResponseTopic) (internal : Bool)
    (hn : ∀ t ∈ topics, t.Topic ≠ none) :
    PrintTopics ErrorForCode topics internal false =
        some [Out.table
          { headers := ["NAME", "PARTITIONS", "REPLICAS"],
            rows := ((sortSlice nameLess topics).filter (rendered internal)).map summaryRow }] ∧
      (∃ out, PrintTopics ErrorForCode topics internal true = some out ∧
        out.filter notBlank =
          (((sortSlice nameLess topics).filter (rendered internal)).map
            (topicBlock ErrorForCode)).flatten) ∧
      ((sortSlice nameLess topics).filter (rendered internal)).Perm
        (topics.filter (fun t => internal || !t.IsInternal)) ∧
      (∀ t, t ∈ (sortSlice nameLess topics).filter (rendered internal) ↔
        t ∈ topics ∧ (internal = true ∨ t.IsInternal = false)) := by
  refine ⟨PrintTopics_summary_eq ErrorForCode topics internal hn,
    PrintTopics_detailed_eq ErrorForCode topics internal hn,
    (sortSlice_perm nameLess topics).filter _, ?_⟩
  intro t
  rw [List.mem_filter, (sortSlice_perm nameLess topics).mem_iff]
  unfold rendered
  cases internal <;> cases t.IsInternal <;> simp

/-- C8 at a concrete input: an internal topic and `topic1`, internal topics
not asked for. -/
theorem PrintTopics_renders_exactly_witness :
    (∀ t ∈ topicsMixed, t.Topic ≠ none) ∧
      PrintTopics lookupSample topicsMixed false false =
        some [Out.table
          { headers := ["NAME", "PARTITIONS", "REPLICAS"],
            rows := ((sortSlice nameLess topicsMixed).filter (rendered false)).map summaryRow }] ∧
      (∃ out, PrintTopics lookupSample topicsMixed false true = some out ∧
        out.filter notBlank =
          (((sortSlice nameLess topicsMixed).filter (rendered false)).map
            (topicBlock lookupSample)).flatten) ∧
      ((sortSlice nameLess topicsMixed).filter (rendered false)).Perm
        (topicsMixed.filter (fun t => false || !t.IsInternal)) ∧
      (∀ t, t ∈ (sortSlice nameLess topicsMixed).filter (rendered false) ↔
        t ∈ topicsMixed ∧ (false = true ∨ t.IsInternal = false)) :=
  ⟨by decide, PrintTopics_renders_exactly lookupSample topicsMixed false (by decide)⟩

/-! ## Sorting: the outcome is ascending -/

theorem orderedInsert_pairwise {α : Type} (less : α → α → Bool)
    (hasym : ∀ a b, less a b = true → less b a = false)
    (htrans : ∀ a b c, less b a = false → less c b = false → less c a = false)
    (a : α) (l : List α) (hl : l.Pairwise (fun x y => less y x = false)) :
    (orderedInsert less a l).Pairwise (fun x y => less y x = false) := by
  induction l with
  | nil => simp [orderedInsert]
  | cons b l ih =>
    rw [List.pairwise_cons] at hl
    unfold orderedInsert
    by_cases h : less b a = true
    · rw [if_pos h, List.pairwise_cons]
      refine ⟨?_, ih hl.2⟩
      intro x hx
      have hx2 : x ∈ a :: l := (orderedInsert_perm less a l).mem_iff.mp hx
      rcases List.mem_cons.mp hx2 with hxa | hxl
      · rw [hxa]; exact hasym b a h
      · exact hl.1 x hxl
    · rw [if_neg h]
      have hba : less b a = false := by simpa using h
      rw [List.pairwise_cons, List.pairwise_cons]
      refine ⟨?_, hl⟩
      intro x hx
      rcases List.mem_cons.mp hx with hxb | hxl
      · rw [hxb]; exact hba
      · exact htrans a b x hba (hl.1 x hxl)

theorem sortSlice_pairwise {α : Type} (less : α → α → Bool)
    (hasym : ∀ a b, less a b = true → less b a = false)
    (htrans : ∀ a b c, less b a = false → less c b = false → less c a = false)
    (xs : List α) : (sortSlice less xs).Pairwise (fun x y => less y x = false) := by
  induction xs with
  | nil => simp [sortSlice]
  | cons a l ih =>
    unfold sortSlice
    exact orderedInsert_pairwise less hasym htrans a _ ih

theorem sortSlice_brokers_ascending (brokers : List MetadataResponseBroker) :
    (sortSlice brokerLess brokers).Pairwise (fun a b => a.NodeID ≤ b.NodeID) := by
  have h := sortSlice_pairwise brokerLess
    (by intro a b; simp only [brokerLess, decide_eq_true_eq, decide_eq_false_iff_not]; omega)
    (by intro a b c; simp only [brokerLess, decide_eq_false_iff_not]; omega) brokers
  refine h.imp ?_
  intro a b hab
  simp only [brokerLess, decide_eq_false_iff_not] at hab
  omega

/-! ## `printBrokers`: closed form -/

theorem foldl_Print {α : Type} (g : α → List Cell) (xs : List α) (tw : TabWriter) :
    xs.foldl (fun tw x => tw.Print (g x)) tw =
      { headers := tw.headers, rows := tw.rows ++ xs.map g } := by
  induction xs generalizing tw with
  | nil => simp
  | cons x xs ih =>
    rw [List.foldl_cons, ih]
    simp [TabWriter.Print]

theorem rackScan_eq (headers : List String) (args : MetadataResponseBroker → List Cell)
    (brokers : List MetadataResponseBroker) :
    rackScan headers args brokers =
      (headers ++ (if anyRack brokers then ["RACK"] else []),
        fun b => args b ++ rackCells (anyRack brokers) b) := by
  induction brokers with
  | nil => simp [rackScan, anyRack, rackCells]
  | cons b rest ih =>
    unfold rackScan
    by_cases h : (b.Rack != none) = true
    · rw [if_pos h]
      have ha : anyRack (b :: rest) = true := by simp [anyRack, h]
      rw [ha]
      refine Prod.ext (by simp) ?_
      funext x
      cases hx : x.Rack <;> simp [rackCells, hx]
    · rw [if_neg h, ih]
      have ha : anyRack (b :: rest) = anyRack rest := by
        simp only [anyRack, List.any_cons]
        simp [h]
      rw [ha]

theorem printBrokersTable_eq (controllerID : Int) (brokers : List MetadataResponseBroker) :
    printBrokersTable controllerID brokers =
      { headers := ["ID", "HOST", "PORT"] ++
          (if anyRack (sortSlice brokerLess brokers) then ["RACK"] else []),
        rows := (sortSlice brokerLess brokers).map
          (fun b => brokerArgs controllerID b ++
            rackCells (anyRack (sortSlice brokerLess brokers)) b) } := by
  unfold printBrokersTable
  simp only [rackScan_eq, foldl_Print, NewTable, List.nil_append]

/-- C9: the rows printed by `printBrokers` are the rows of a rearrangement of
the input brokers in non-decreasing order of NodeID, one row per broker: each
row carries the host and the port of its broker, its NodeID (plain or with the
controller marker) and, when the table has a fourth column, its rack. -/
theorem printBrokers_rows_sorted_perm (controllerID : Int)
    (brokers : List MetadataResponseBroker) :
    ∃ sorted tw, sorted.Perm brokers ∧
      sorted.Pairwise (fun a b => a.NodeID ≤ b.NodeID) ∧
      printBrokers controllerID brokers = [Out.table tw] ∧
      List.Forall₂
        (fun row b =>
          (row.get? 0 = some (Cell.int32 b.NodeID) ∨ row.get? 0 = some (markedID b)) ∧
            row.get? 1 = some (Cell.str b.Host) ∧ row.get? 2 = some (Cell.int32 b.Port) ∧
            (row.get? 3 = none ∨ row.get? 3 = some (Cell.str (b.Rack.getD ""))))
        tw.rows sorted := by
  refine ⟨sortSlice brokerLess brokers, printBrokersTable controllerID brokers,
    sortSlice_perm _ _, sortSlice_brokers_ascending brokers, rfl, ?_⟩
  rw [printBrokersTable_eq]
  simp only [List.forall₂_map_left_iff, List.forall₂_same]
  intro b _
  unfold brokerArgs rackCells markedID
  by_cases hc : b.NodeID = controllerID <;>
    cases anyRack (sortSlice brokerLess brokers) <;> simp [hc]

/-- C10: in the rows of `printBrokers`, taken along the sorted brokers, the ID
cell is the NodeID followed by `*` if and only if the NodeID of the broker
equals the controller ID, and the plain NodeID otherwise; when no broker has
the controller ID every ID cell is a plain NodeID. -/
theorem printBrokers_controller_marker (controllerID : Int)
    (brokers : List MetadataResponseBroker) :
    ∃ sorted tw, sorted.Perm brokers ∧
      printBrokers controllerID brokers = [Out.table tw] ∧
      List.Forall₂
        (fun row b =>
          (row.head? = some (markedID b) ↔ b.NodeID = controllerID) ∧
            (row.head? = some (Cell.int32 b.NodeID) ↔ b.NodeID ≠ controllerID))
        tw.rows sorted ∧
      ((∀ b ∈ brokers, b.NodeID ≠ controllerID) →
        ∀ row ∈ tw.rows, ∃ n, row.head? = some (Cell.int32 n)) := by
  refine ⟨sortSlice brokerLess brokers, printBrokersTable controllerID brokers,
    sortSlice_perm _ _, rfl, ?_, ?_⟩
  · rw [printBrokersTable_eq]
    simp only [List.forall₂_map_left_iff, List.forall₂_same]
    intro b _
    unfold brokerArgs markedID
    by_cases hc : b.NodeID = controllerID <;> simp [hc]
  · intro hno row hrow
    rw [printBrokersTable_eq] at hrow
    simp only [List.mem_map] at hrow
    obtain ⟨b, hb, hrb⟩ := hrow
    have hbm : b ∈ brokers := (sortSlice_perm brokerLess brokers).mem_iff.mp hb
    have hc := hno b hbm
    refine ⟨b.NodeID, ?_⟩
    rw [← hrb]
    unfold brokerArgs
    simp [hc]

/-! ## `printBrokers`: the rack column -/

theorem anyRack_perm {l₁ l₂ : List MetadataResponseBroker} (h : l₁.Perm l₂) :
    anyRack l₁ = anyRack l₂ := by
  unfold anyRack
  rw [Bool.eq_iff_iff, List.any_eq_true, List.any_eq_true]
  constructor
  · rintro ⟨x, hx, hp⟩
    exact ⟨x, h.mem_iff.mp hx, hp⟩
  · rintro ⟨x, hx, hp⟩
    exact ⟨x, h.mem_iff.mpr hx, hp⟩

theorem anyRack_iff (brokers : List MetadataResponseBroker) :
    anyRack brokers = true ↔ ∃ b ∈ brokers, b.Rack ≠ none := by
  unfold anyRack
  simp [List.any_eq_true]

/-- C11: the header list of `printBrokers` is ID, HOST, PORT, RACK when at
least one broker has a rack and ID, HOST, PORT otherwise.  The rows are those
of the brokers in non-decreasing order of NodeID, and the row of a broker is
its ID cell (with the controller marker or plain), its host, its port and,
when the RACK column is there, one more cell: the rack of that same broker, or
the empty string when that broker has no rack.  Without the RACK column a row
has no fourth cell.  For broker 2 without rack and broker 1 with rack `rack-a`
the RACK column is there and the cell of broker 2 is empty. -/
theorem printBrokers_rack_column (controllerID : Int)
    (brokers : List MetadataResponseBroker) :
    ∃ sorted tw, sorted.Perm brokers ∧
      sorted.Pairwise (fun a b => a.NodeID ≤ b.NodeID) ∧
      printBrokers controllerID brokers = [Out.table tw] ∧
      ((∃ b ∈ brokers, b.Rack ≠ none) ↔ tw.headers = ["ID", "HOST", "PORT", "RACK"]) ∧
      ((∀ b ∈ brokers, b.Rack = none) ↔ tw.headers = ["ID", "HOST", "PORT"]) ∧
      List.Forall₂
        (fun row b =>
          row =
            [if b.NodeID = controllerID then markedID b else Cell.int32 b.NodeID,
              Cell.str b.Host, Cell.int32 b.Port] ++
              (if tw.headers = ["ID", "HOST", "PORT", "RACK"] then
                [Cell.str (match b.Rack with
                  | some r => r
                  | none => "")]
              else []))
        tw.rows sorted ∧
      printBrokers 1 brokersRackMixed =
        [Out.table
          { headers := ["ID", "HOST", "PORT", "RACK"],
            rows :=
              [[Cell.str "1*", Cell.str "host-a", Cell.int32 9092, Cell.str "rack-a"],
               [Cell.int32 2, Cell.str "host-b", Cell.int32 9093, Cell.str ""]] }] := by
  refine ⟨sortSlice brokerLess brokers, printBrokersTable controllerID brokers,
    sortSlice_perm _ _, sortSlice_brokers_ascending brokers, rfl, ?_⟩
  suffices hmain :
      ((∃ b ∈ brokers, b.Rack ≠ none) ↔
          (printBrokersTable controllerID brokers).headers = ["ID", "HOST", "PORT", "RACK"]) ∧
        ((∀ b ∈ brokers, b.Rack = none) ↔
          (printBrokersTable controllerID brokers).headers = ["ID", "HOST", "PORT"]) ∧
        List.Forall₂
          (fun row b =>
            row =
              [if b.NodeID = controllerID then markedID b else Cell.int32 b.NodeID,
                Cell.str b.Host, Cell.int32 b.Port] ++
                (if (printBrokersTable controllerID brokers).headers =
                    ["ID", "HOST", "PORT", "RACK"] then
                  [Cell.str (match b.Rack with
                    | some r => r
                    | none => "")]
                else []))
          (printBrokersTable controllerID brokers).rows (sortSlice brokerLess brokers) from
    ⟨hmain.1, hmain.2.1, hmain.2.2, by decide⟩
  rw [printBrokersTable_eq, anyRack_perm (sortSlice_perm brokerLess brokers)]
  have hiff := anyRack_iff brokers
  cases ha : anyRack brokers
  · have hnone : ∀ b ∈ brokers, b.Rack = none := by
      intro b hb
      by_contra hne
      have := hiff.mpr ⟨b, hb, hne⟩
      rw [ha] at this
      exact Bool.noConfusion this
    have hno : ¬ ∃ b ∈ brokers, b.Rack ≠ none := by
      rintro ⟨b, hb, hne⟩
      exact hne (hnone b hb)
    refine ⟨by simp [hno], ⟨fun _ => by simp, fun _ => hnone⟩, ?_⟩
    simp only [List.forall₂_map_left_iff, List.forall₂_same]
    intro b _
    unfold brokerArgs rackCells markedID
    by_cases hc : b.NodeID = controllerID <;> simp [hc]
  · have hex : ∃ b ∈ brokers, b.Rack ≠ none := hiff.mp ha
    have hnall : ¬ ∀ b ∈ brokers, b.Rack = none := by
      intro hall
      obtain ⟨b, hb, hne⟩ := hex
      exact hne (hall b hb)
    refine ⟨by simp [hex], ⟨fun h => absurd h hnall, fun h => by simp at h⟩, ?_⟩
    simp only [List.forall₂_map_left_iff, List.forall₂_same]
    intro b _
    unfold brokerArgs rackCells markedID
    by_cases hc : b.NodeID = controllerID <;> cases hr : b.Rack <;> simp [hc]

/-! ## The order of strings -/

theorem lessCodes_asymm : ∀ a b : List Nat, lessCodes a b = true → lessCodes b a = false
  | [], [] => by intro h; simp [lessCodes] at h
  | _ :: _, [] => by intro h; simp [lessCodes] at h
  | [], _ :: _ => by intro _; simp [lessCodes]
  | a :: as, b :: bs => by
    intro h
    simp only [lessCodes] at h ⊢
    by_cases h1 : a < b
    · have h2 : ¬ b < a := by omega
      simp [h2, h1]
    · by_cases h2 : b < a
      · simp [h1, h2] at h
      · simp only [h1, h2, if_false] at h ⊢
        exact lessCodes_asymm as bs h

theorem lessCodes_geTrans :
    ∀ a b c : List Nat, lessCodes b a = false → lessCodes c b = false → lessCodes c a = false
  | [], _, _ => by intro _ _; simp [lessCodes]
  | _ :: _, [], _ => by intro h; simp [lessCodes] at h
  | _ :: _, _ :: _, [] => by intro _ h; simp [lessCodes] at h
  | a :: as, b :: bs, c :: cs => by
    intro h1 h2
    simp only [lessCodes] at h1 h2 ⊢
    by_cases hba : b < a
    · simp [hba] at h1
    · by_cases hab : a < b
      · by_cases hcb : c < b
        · simp [hcb] at h2
        · have hca : ¬ c < a := by omega
          have hac : a < c := by omega
          simp [hca, hac]
      · simp only [hba, hab, if_false] at h1
        by_cases hcb : c < b
        · simp [hcb] at h2
        · by_cases hbc : b < c
          · have hca : ¬ c < a := by omega
            have hac : a < c := by omega
            simp [hca, hac]
          · simp only [hcb, hbc, if_false] at h2
            have hca : ¬ c < a := by omega
            have hac : ¬ a < c := by omega
            simp only [hca, hac, if_false]
            exact lessCodes_geTrans as bs cs h1 h2

theorem lessCodes_total :
    ∀ a b : List Nat, lessCodes a b = false → lessCodes b a = false → a = b
  | [], [] => by intro _ _; rfl
  | _ :: _, [] => by intro _ h; simp [lessCodes] at h
  | [], _ :: _ => by intro h; simp [lessCodes] at h
  | a :: as, b :: bs => by
    intro h1 h2
    simp only [lessCodes] at h1 h2
    by_cases hab : a < b
    · simp [hab] at h1
    · by_cases hba : b < a
      · simp [hba] at h2
      · simp only [hab, hba, if_false] at h1 h2
        have he : a = b := by omega
        rw [he, lessCodes_total as bs h1 h2]

theorem codes_injective (x y : String)
    (h : x.data.map Char.toNat = y.data.map Char.toNat) : x = y := by
  have hinj : Function.Injective Char.toNat := by
    intro c d hcd
    rw [← Char.ofNat_toNat c, ← Char.ofNat_toNat d, hcd]
  exact String.ext (List.map_injective_iff.mpr hinj h)

theorem stringLess_asymm (x y : String) (h : stringLess x y = true) :
    stringLess y x = false :=
  lessCodes_asymm _ _ h

theorem stringLess_geTrans (x y z : String) (h1 : stringLess y x = false)
    (h2 : stringLess z y = false) : stringLess z x = false :=
  lessCodes_geTrans _ _ _ h1 h2

theorem stringLess_total (x y : String) (h1 : stringLess x y = false)
    (h2 : stringLess y x = false) : x = y :=
  codes_injective x y (lessCodes_total _ _ h1 h2)

/-! ## Sorting: distinct keys come out strictly ascending -/

theorem sortSlice_strict {α : Type} (less : α → α → Bool)
    (hasym : ∀ a b, less a b = true → less b a = false)
    (htrans : ∀ a b c, less b a = false → less c b = false → less c a = false)
    (xs : List α) (hne : xs.Pairwise (fun a b => less a b = true ∨ less b a = true)) :
    (sortSlice less xs).Pairwise (fun a b => less a b = true) := by
  have h1 := sortSlice_pairwise less hasym htrans xs
  have h2 : (sortSlice less xs).Pairwise (fun a b => less a b = true ∨ less b a = true) :=
    ((sortSlice_perm less xs).pairwise_iff (fun h => h.symm)).mpr hne
  refine (h1.and h2).imp ?_
  intro a b hab
  rcases hab.2 with h | h
  · exact h
  · rw [hab.1] at h
    exact Bool.noConfusion h

theorem sortSlice_topics_strict (topics : List MetadataResponseTopic)
    (hn : ∀ t ∈ topics, t.Topic ≠ none)
    (hd : (topics.map (fun t => t.Topic)).Nodup) :
    (sortSlice nameLess topics).Pairwise (fun a b => nameLess a b = true) := by
  apply sortSlice_strict nameLess
    (fun a b h => stringLess_asymm _ _ h)
    (fun a b c h1 h2 => stringLess_geTrans _ _ _ h1 h2)
  have hp : topics.Pairwise (fun a b => a.Topic ≠ b.Topic) := by
    have := hd
    unfold List.Nodup at this
    rwa [List.pairwise_map] at this
  refine hp.imp_of_mem ?_
  intro a b ha hb hab
  cases h1 : nameLess a b with
  | true => exact Or.inl rfl
  | false =>
    cases h2 : nameLess b a with
    | true => exact Or.inr rfl
    | false =>
      exfalso
      have he := stringLess_total _ _ h1 h2
      apply hab
      cases hx : a.Topic with
      | none => exact absurd hx (hn a ha)
      | some x =>
        cases hy : b.Topic with
        | none => exact absurd hy (hn b hb)
        | some y =>
          rw [hx, hy] at he
          simp only [Option.getD_some] at he
          rw [he]

theorem sortSlice_partitions_strict (ps : List MetadataResponseTopicPartition)
    (hd : (ps.map (fun p => p.Partition)).Nodup) :
    (sortSlice partitionLess ps).Pairwise (fun a b => a.Partition < b.Partition) := by
  have h := sortSlice_strict partitionLess
    (by intro a b; simp only [partitionLess, decide_eq_true_eq, decide_eq_false_iff_not]; omega)
    (by intro a b c; simp only [partitionLess, decide_eq_false_iff_not]; omega) ps
    (by
      have hp : ps.Pairwise (fun a b => a.Partition ≠ b.Partition) := by
        have := hd
        unfold List.Nodup at this
        rwa [List.pairwise_map] at this
      refine hp.imp ?_
      intro a b hab
      simp only [partitionLess, decide_eq_true_eq]
      omega)
  refine h.imp ?_
  intro a b hab
  simpa [partitionLess] using hab

/-! ## The partition table: closed form -/

theorem partitionTable_eq (ErrorForCode : Int → Option String) (t : MetadataResponseTopic) :
    partitionTable ErrorForCode t =
      { headers := detailHeaders (scanColumns t.Partitions),
        rows := (sortSlice partitionLess t.Partitions).map
          (partitionArgs ErrorForCode (scanColumns t.Partitions)) } := by
  unfold partitionTable
  simp only [foldl_Print, NewTable, List.nil_append]

theorem partitionArgs_index (ErrorForCode : Int → Option String) (u : ColumnUse)
    (p : MetadataResponseTopicPartition) :
    (partitionArgs ErrorForCode u p).get? 1 = some (Cell.int32 p.Partition) := by
  unfold partitionArgs
  rcases u with ⟨e, o, r⟩
  cases e <;> cases o <;> cases r <;> cases ErrorForCode p.ErrorCode <;> simp

/-- C12: for a topic list whose names are present and pairwise distinct, the
rendered topics are the kept input topics in strictly ascending order of name,
in summary mode (the rows) and in detailed mode (header line and table of each
topic, blank separator lines apart); and in detailed mode, for a topic whose
partition indices are pairwise distinct, the partition rows are the rows of a
rearrangement of its partitions in strictly ascending order of index. -/
theorem PrintTopics_ascending (ErrorForCode : Int → Option String)
    (topics : List MetadataResponseTopic) (internal : Bool)
    (hn : ∀ t ∈ topics, t.Topic ≠ none)
    (hd : (topics.map (fun t => t.Topic)).Nodup) :
    ∃ shown : List MetadataResponseTopic, shown.Perm (topics.filter (rendered internal)) ∧
      shown.Pairwise (fun a b => nameLess a b = true) ∧
      PrintTopics ErrorForCode topics internal false =
        some [Out.table
          { headers := ["NAME", "PARTITIONS", "REPLICAS"], rows := shown.map summaryRow }] ∧
      (∃ out, PrintTopics ErrorForCode topics internal true = some out ∧
        out.filter notBlank = (shown.map (topicBlock ErrorForCode)).flatten) ∧
      ∀ t : MetadataResponseTopic, (t.Partitions.map (fun p => p.Partition)).Nodup →
        ∃ parts : List MetadataResponseTopicPartition, parts.Perm t.Partitions ∧
          parts.Pairwise (fun a b => a.Partition < b.Partition) ∧
          (partitionTable ErrorForCode t).rows =
            parts.map (partitionArgs ErrorForCode (scanColumns t.Partitions)) ∧
          List.Forall₂ (fun row p => row.get? 1 = some (Cell.int32 p.Partition))
            (partitionTable ErrorForCode t).rows parts := by
  refine ⟨(sortSlice nameLess topics).filter (rendered internal),
    (sortSlice_perm nameLess topics).filter _,
    (sortSlice_topics_strict topics hn hd).sublist (List.filter_sublist _),
    PrintTopics_summary_eq ErrorForCode topics internal hn,
    PrintTopics_detailed_eq ErrorForCode topics internal hn, ?_⟩
  intro t ht
  refine ⟨sortSlice partitionLess t.Partitions, sortSlice_perm _ _,
    sortSlice_partitions_strict t.Partitions ht, by rw [partitionTable_eq], ?_⟩
  rw [partitionTable_eq]
  simp only [List.forall₂_map_left_iff, List.forall₂_same]
  intro p _
  exact partitionArgs_index ErrorForCode _ p

/-- C12 at a concrete input: `topic1` and an internal topic, all topics shown. -/
theorem PrintTopics_ascending_witness :
    (∀ t ∈ topicsMixed, t.Topic ≠ none) ∧ (topicsMixed.map (fun t => t.Topic)).Nodup ∧
      ∃ shown : List MetadataResponseTopic, shown.Perm (topicsMixed.filter (rendered true)) ∧
        shown.Pairwise (fun a b => nameLess a b = true) ∧
        PrintTopics lookupSample topicsMixed true false =
          some [Out.table
            { headers := ["NAME", "PARTITIONS", "REPLICAS"], rows := shown.map summaryRow }] ∧
        (∃ out, PrintTopics lookupSample topicsMixed true true = some out ∧
          out.filter notBlank = (shown.map (topicBlock lookupSample)).flatten) ∧
        ∀ t : MetadataResponseTopic, (t.Partitions.map (fun p => p.Partition)).Nodup →
          ∃ parts : List MetadataResponseTopicPartition, parts.Perm t.Partitions ∧
            parts.Pairwise (fun a b => a.Partition < b.Partition) ∧
            (partitionTable lookupSample t).rows =
              parts.map (partitionArgs lookupSample (scanColumns t.Partitions)) ∧
            List.Forall₂ (fun row p => row.get? 1 = some (Cell.int32 p.Partition))
              (partitionTable lookupSample t).rows parts :=
  ⟨by decide, by decide,
    PrintTopics_ascending lookupSample topicsMixed true (by decide) (by decide)⟩

/-! ## Detailed mode: columns, cells and header line -/

theorem scanColumns_foldl (ps : List MetadataResponseTopicPartition) (u : ColumnUse) :
    ps.foldl
        (fun (u : ColumnUse) (p : MetadataResponseTopicPartition) =>
          { useEpoch := if p.LeaderEpoch != -1 then true else u.useEpoch,
            useOffline := if decide (p.OfflineReplicas.length > 0) then true else u.useOffline,
            useErr := if p.ErrorCode != 0 then true else u.useErr })
        u =
      { useEpoch := u.useEpoch || ps.any (fun p => p.LeaderEpoch != -1),
        useOffline := u.useOffline || ps.any (fun p => decide (p.OfflineReplicas.length > 0)),
        useErr := u.useErr || ps.any (fun p => p.ErrorCode != 0) } := by
  induction ps generalizing u with
  | nil => simp
  | cons p ps ih =>
    rw [List.foldl_cons, ih]
    rcases u with ⟨e, o, r⟩
    simp only [List.any_cons, ColumnUse.mk.injEq]
    generalize (p.LeaderEpoch != -1) = c1
    generalize decide (p.OfflineReplicas.length > 0) = c2
    generalize (p.ErrorCode != 0) = c3
    refine ⟨?_, ?_, ?_⟩
    · cases c1 <;> cases e <;> simp
    · cases c2 <;> cases o <;> simp
    · cases c3 <;> cases r <;> simp

theorem scanColumns_eq (ps : List MetadataResponseTopicPartition) :
    scanColumns ps =
      { useEpoch := ps.any (fun p => p.LeaderEpoch != -1),
        useOffline := ps.any (fun p => decide (p.OfflineReplicas.length > 0)),
        useErr := ps.any (fun p => p.ErrorCode != 0) } := by
  unfold scanColumns
  rw [scanColumns_foldl]
  simp

theorem scanColumns_useEpoch (ps : List MetadataResponseTopicPartition) :
    (scanColumns ps).useEpoch = true ↔ ∃ p ∈ ps, p.LeaderEpoch ≠ -1 := by
  rw [scanColumns_eq]
  simp [List.any_eq_true]

theorem scanColumns_useOffline (ps : List MetadataResponseTopicPartition) :
    (scanColumns ps).useOffline = true ↔ ∃ p ∈ ps, p.OfflineReplicas ≠ [] := by
  rw [scanColumns_eq]
  simp [List.any_eq_true, List.length_pos]

theorem scanColumns_useErr (ps : List MetadataResponseTopicPartition) :
    (scanColumns ps).useErr = true ↔ ∃ p ∈ ps, p.ErrorCode ≠ 0 := by
  rw [scanColumns_eq]
  simp [List.any_eq_true]

/-- C13: in detailed mode the header list of the partition table of a topic is
the empty leading header (it indents the nested table), then partition,
leader, then epoch if and only if some partition has LeaderEpoch other than
-1, then replicas, then offline-replicas if and only if some partition has a
non-empty offline-replica list, then load-error if and only if some partition
has ErrorCode other than 0. -/
theorem partitionTable_headers (ErrorForCode : Int → Option String)
    (t : MetadataResponseTopic) :
    (partitionTable ErrorForCode t).headers =
      ["", "partition", "leader"] ++
        (if ∃ p ∈ t.Partitions, p.LeaderEpoch ≠ -1 then ["epoch"] else []) ++
        ["replicas"] ++
        (if ∃ p ∈ t.Partitions, p.OfflineReplicas ≠ [] then ["offline-replicas"] else []) ++
        (if ∃ p ∈ t.Partitions, p.ErrorCode ≠ 0 then ["load-error"] else []) := by
  rw [partitionTable_eq]
  simp only [← scanColumns_useEpoch, ← scanColumns_useOffline, ← scanColumns_useErr]
  generalize scanColumns t.Partitions = u
  rcases u with ⟨e, o, r⟩
  cases e <;> cases o <;> cases r <;> simp [detailHeaders]

theorem int32s_sort_perm (l : List Int) : (int32s.sort l).Perm l :=
  sortSlice_perm _ l

theorem int32s_sort_ascending (l : List Int) :
    (int32s.sort l).Pairwise (fun a b => a ≤ b) := by
  have h := sortSlice_pairwise (fun a b : Int => decide (a < b))
    (by intro a b; simp only [decide_eq_true_eq, decide_eq_false_iff_not]; omega)
    (by intro a b c; simp only [decide_eq_false_iff_not]; omega) l
  refine h.imp ?_
  intro a b hab
  simp only [decide_eq_false_iff_not] at hab
  omega

theorem int32s_sort_congr (l₁ l₂ : List Int) (h : l₁.Perm l₂) :
    int32s.sort l₁ = int32s.sort l₂ :=
  List.eq_of_perm_of_sorted
    (((int32s_sort_perm l₁).trans h).trans (int32s_sort_perm l₂).symm)
    (int32s_sort_ascending l₁) (int32s_sort_ascending l₂)

/-- C14: in a partition row of detailed mode the replicas cell, and the
offline-replicas cell when that column is shown, is the list sorted by
`int32s.sort`; the sorted list is a rearrangement of the input list, it is
non-decreasing, it is the same for any two lists that are rearrangements of
each other, and sorting it again changes nothing. -/
theorem partitionArgs_replicas_sorted (ErrorForCode : Int → Option String)
    (u : ColumnUse) (p : MetadataResponseTopicPartition) :
    (partitionArgs ErrorForCode u p).get? (if u.useEpoch then 4 else 3) =
        some (Cell.int32s (int32s.sort p.Replicas)) ∧
      (u.useOffline = true →
        (partitionArgs ErrorForCode u p).get? (if u.useEpoch then 5 else 4) =
          some (Cell.int32s (int32s.sort p.OfflineReplicas))) ∧
      ∀ l : List Int,
        (int32s.sort l).Perm l ∧ (int32s.sort l).Pairwise (fun a b => a ≤ b) ∧
          int32s.sort (int32s.sort l) = int32s.sort l ∧
          ∀ l₂ : List Int, l₂.Perm l → int32s.sort l₂ = int32s.sort l := by
  refine ⟨?_, ?_, ?_⟩
  · unfold partitionArgs
    rcases u with ⟨e, o, r⟩
    cases e <;> cases o <;> cases r <;> cases ErrorForCode p.ErrorCode <;> simp
  · intro ho
    unfold partitionArgs
    rcases u with ⟨e, o, r⟩
    simp only at ho
    subst ho
    cases e <;> cases r <;> cases ErrorForCode p.ErrorCode <;> simp
  · intro l
    exact ⟨int32s_sort_perm l, int32s_sort_ascending l,
      int32s_sort_congr _ _ (int32s_sort_perm l), fun l₂ h => int32s_sort_congr _ _ h⟩

/-- C15: the header line of a topic in detailed mode is its name, then
` (internal)` if and only if the topic is internal, then `, N partitions`
with N the number of partitions, then `, R replicas` if and only if N is
positive, where R is the replica count that the summary row of the topic
shows; a topic `topic1` that is not internal with one partition of three
replicas gives `topic1, 1 partitions, 3 replicas`. -/
theorem topicLine_format (name : String) (t : MetadataResponseTopic) :
    (∃ R : Nat, (summaryRow t).get? 2 = some (Cell.int R) ∧
      topicLine name t =
        name ++ (if t.IsInternal then " (internal)" else "") ++
          (", " ++ toString t.Partitions.length ++ " partitions") ++
          (if t.Partitions.length > 0 then ", " ++ toString R ++ " replicas" else "")) ∧
      PrintTopics lookupSample [topicOnePartition] true true =
        some [Out.line "topic1, 1 partitions, 3 replicas",
          Out.table
            { headers := ["", "partition", "leader", "replicas"],
              rows := [[Cell.str "", Cell.int32 0, Cell.int32 1, Cell.int32s [1, 2, 3]]] }] := by
  refine ⟨?_, by decide⟩
  cases hp : t.Partitions with
  | nil =>
    refine ⟨0, by simp [summaryRow, hp], ?_⟩
    cases hi : t.IsInternal <;>
      simp [-String.reduceAppend, topicLine, hp, hi, String.append_assoc]
  | cons p ps =>
    refine ⟨p.Replicas.length, by simp [summaryRow, hp], ?_⟩
    cases hi : t.IsInternal <;>
      simp [-String.reduceAppend, topicLine, hp, hi, String.append_assoc]

/-! ## `Run`: the sections one by one -/

theorem printSections_eq_parts (ErrorForCode : Int → Option String) (r : Flags)
    (rs : Nat) (resp : MetadataResponse) :
    printSections ErrorForCode r rs resp =
      (if r.topics = true ∧ resp.Topics ≠ [] then
        (PrintTopics ErrorForCode resp.Topics r.internal r.detailed).map
          (specSection (decide (1 < rs)) "TOPICS")
      else some []).map
        (fun t => clusterSection (decide (1 < rs)) r resp ++
          brokersSection (decide (1 < rs)) r resp ++ t) := by
  unfold printSections clusterSection brokersSection
  simp only [fun fn => header_eq_specSection rs "CLUSTER" fn underline_CLUSTER,
    fun fn => header_eq_specSection rs "BROKERS" fn underline_BROKERS,
    fun fn => header_eq_specSection rs "TOPICS" fn underline_TOPICS]
  generalize decide (1 < rs) = headed
  generalize specSection headed "CLUSTER" = sc
  generalize specSection headed "BROKERS" = sb
  generalize specSection headed "TOPICS" = st
  rcases resp with ⟨cid, ctl, bs, ts⟩
  rcases r with ⟨c, b, t, i, d⟩
  generalize PrintTopics ErrorForCode ts i d = pt
  cases c <;> cases b <;> cases t <;> cases cid <;> cases ts <;> cases pt <;> simp

/-- C16: the cluster section (the cluster identifier line, with its header,
underline and blank line when sections are headed) is printed if and only if
the resolved show-cluster flag is true and the response carries a ClusterID.
With show-cluster true and no ClusterID nothing is printed for it, the run
does not fail on that account, and what follows (brokers, topics) is what is
printed with show-cluster false. -/
theorem printSections_cluster (ErrorForCode : Int → Option String) (r : Flags)
    (rs : Nat) (resp : MetadataResponse) :
    printSections ErrorForCode r rs resp =
        (printSections ErrorForCode { r with cluster := false } rs resp).map
          (fun rest => clusterSection (decide (1 < rs)) r resp ++ rest) ∧
      (clusterSection (decide (1 < rs)) r resp ≠ [] ↔
        r.cluster = true ∧ resp.ClusterID ≠ none) ∧
      (∀ id, r.cluster = true → resp.ClusterID = some id →
        clusterSection (decide (1 < rs)) r resp =
          if 1 < rs then
            [Out.line "CLUSTER", Out.line "=======", Out.line id, Out.line ""]
          else [Out.line id]) ∧
      printSections ErrorForCode r rs { resp with ClusterID := none } =
        printSections ErrorForCode { r with cluster := false } rs resp := by
  refine ⟨?_, ?_, ?_, ?_⟩
  · rw [printSections_eq_parts, printSections_eq_parts]
    rcases r with ⟨c, b, t, i, d⟩
    simp only [Option.map_map]
    congr 1
    funext x
    simp [clusterSection, brokersSection, List.append_assoc]
  · rcases r with ⟨c, b, t, i, d⟩
    rcases resp with ⟨cid, ctl, bs, ts⟩
    cases c <;> cases cid <;> cases hh : decide (1 < rs) <;>
      simp [clusterSection, specSection]
  · intro id hc hid
    unfold clusterSection specSection
    rw [hc, hid]
    by_cases h : 1 < rs
    · have hu : String.mk (List.replicate "CLUSTER".length '=') = "=======" := by decide
      simp only [h, decide_True, if_true, hu]
      rfl
    · simp [h]
  · rw [printSections_eq_parts, printSections_eq_parts]
    rcases r with ⟨c, b, t, i, d⟩
    cases c <;> simp [clusterSection, brokersSection]

theorem appendTopic_foldl (args : List String) (l : List MetadataRequestTopic) :
    args.foldl (fun ts topic => appendTopic ts { Topic := some topic }) (some l) =
      some (l ++ args.map (fun topic => ({ Topic := some topic } : MetadataRequestTopic))) := by
  induction args generalizing l with
  | nil => simp
  | cons a rest ih =>
    rw [List.foldl_cons]
    refine (ih (l ++ [{ Topic := some a }])).trans ?_
    simp

theorem appendTopic_foldl_nil (a : String) (rest : List String) :
    (a :: rest).foldl (fun ts topic => appendTopic ts { Topic := some topic }) none =
      some ((a :: rest).map (fun topic => ({ Topic := some topic } : MetadataRequestTopic))) := by
  rw [List.foldl_cons]
  refine (appendTopic_foldl rest [{ Topic := some a }]).trans ?_
  simp

/-- C17: the topic list of the metadata request built by `Run` holds one
request topic per argument, in argument order, when arguments are given; it is
the empty non-nil list when no argument is given and the resolved show-topics
flag is false; it is nil when no argument is given and the resolved
show-topics flag is true.  This request is the one handed to the round trip
whose response `Run` prints. -/
theorem buildRequest_topics (f : Flags) (args : List String) :
    (buildRequest (resolveFlags f args).1.topics args).Topics =
        (if args ≠ [] then
          some (args.map (fun topic => ({ Topic := some topic } : MetadataRequestTopic)))
        else if (resolveFlags f args).1.topics = true then none
        else some []) ∧
      ∀ (ErrorForCode : Int → Option String)
        (RequestWith : MetadataRequest → MetadataResponse),
        Run ErrorForCode RequestWith f args =
          printSections ErrorForCode (resolveFlags f args).1 (resolveFlags f args).2
            (RequestWith (buildRequest (resolveFlags f args).1.topics args)) := by
  refine ⟨?_, fun _ _ => rfl⟩
  generalize (resolveFlags f args).1.topics = t
  unfold buildRequest
  cases args with
  | nil => cases t <;> simp
  | cons a rest =>
    have hl : (a :: rest).length > 0 := by simp
    rw [if_pos hl, if_pos (by simp)]
    exact appendTopic_foldl_nil a rest

/-- C18: for a response whose topic sequence is empty the output is the
cluster section followed by the brokers section and nothing else, whatever the
resolved show-topics flag; and for every topic sequence the output, when the
topics are printed without a panic, is that same cluster section and brokers
section followed by the topics section.  With the argument `foo` and no topic
in the response, the cluster and brokers sections are printed and no TOPICS
header. -/
theorem printSections_empty_topics (ErrorForCode : Int → Option String) (r : Flags)
    (rs : Nat) (resp : MetadataResponse) :
    printSections ErrorForCode r rs { resp with Topics := [] } =
        some (clusterSection (decide (1 < rs)) r resp ++
          brokersSection (decide (1 < rs)) r resp) ∧
      (∀ ts : List MetadataResponseTopic,
        printSections ErrorForCode r rs { resp with Topics := ts } =
          (if r.topics = true ∧ ts ≠ [] then
            (PrintTopics ErrorForCode ts r.internal r.detailed).map
              (specSection (decide (1 < rs)) "TOPICS")
          else some []).map
            (fun t => clusterSection (decide (1 < rs)) r resp ++
              brokersSection (decide (1 < rs)) r resp ++ t)) ∧
      Run lookupSample (fun _ => respNoTopics) flagsNone ["foo"] =
        some [Out.line "CLUSTER", Out.line "=======", Out.line "redpanda.abc", Out.line "",
          Out.line "BROKERS", Out.line "=======",
          Out.table
            { headers := ["ID", "HOST", "PORT"],
              rows := [[Cell.str "1*", Cell.str "localhost", Cell.int32 9092]] },
          Out.line ""] := by
  refine ⟨?_, ?_, by decide⟩
  · rw [printSections_eq_parts]
    simp [clusterSection, brokersSection]
  · intro ts
    rw [printSections_eq_parts]
    rfl

/-- C19: when the load-error column is shown, it is the last column, and
its cell in a partition row is the literal `-` if and only if the error-code
lookup returns no error for the ErrorCode of the partition; otherwise the cell
is the error the lookup returns for that code, whatever the code.  For a
lookup that returns no error exactly for code 0 the cell is `-` if and only if
ErrorCode is 0.  The row is always built, with as many cells as headers. -/
theorem partitionArgs_load_error (ErrorForCode : Int → Option String) (u : ColumnUse)
    (p : MetadataResponseTopicPartition) (hu : u.useErr = true) :
    (detailHeaders u).getLast? = some "load-error" ∧
      (partitionArgs ErrorForCode u p).getLast? =
        some (match ErrorForCode p.ErrorCode with
          | some err => Cell.err err
          | none => Cell.str "-") ∧
      ((partitionArgs ErrorForCode u p).getLast? = some (Cell.str "-") ↔
        ErrorForCode p.ErrorCode = none) ∧
      ((∀ c, ErrorForCode c = none ↔ c = 0) →
        ((partitionArgs ErrorForCode u p).getLast? = some (Cell.str "-") ↔
          p.ErrorCode = 0)) ∧
      (partitionArgs ErrorForCode u p).length = (detailHeaders u).length := by
  rcases u with ⟨e, o, r⟩
  simp only at hu
  subst hu
  have hlast : (partitionArgs ErrorForCode ⟨e, o, true⟩ p).getLast? =
      some (match ErrorForCode p.ErrorCode with
        | some err => Cell.err err
        | none => Cell.str "-") := by
    unfold partitionArgs
    cases e <;> cases o <;> cases ErrorForCode p.ErrorCode <;> simp
  refine ⟨?_, hlast, ?_, ?_, ?_⟩
  · unfold detailHeaders
    cases e <;> cases o <;> simp
  · rw [hlast]
    cases ErrorForCode p.ErrorCode <;> simp
  · intro hz
    rw [hlast, ← hz p.ErrorCode]
    cases ErrorForCode p.ErrorCode <;> simp
  · unfold partitionArgs detailHeaders
    cases e <;> cases o <;> cases ErrorForCode p.ErrorCode <;> simp

/-- C19 at a concrete input: a partition with error code 3 in a table that
shows the load-error column only. -/
theorem partitionArgs_load_error_witness :
    columnsErrOnly.useErr = true ∧
      (detailHeaders columnsErrOnly).getLast? = some "load-error" ∧
      (partitionArgs lookupSample columnsErrOnly partitionWithError).getLast? =
        some (match lookupSample partitionWithError.ErrorCode with
          | some err => Cell.err err
          | none => Cell.str "-") ∧
      ((partitionArgs lookupSample columnsErrOnly partitionWithError).getLast? =
          some (Cell.str "-") ↔
        lookupSample partitionWithError.ErrorCode = none) ∧
      ((∀ c, lookupSample c = none ↔ c = 0) →
        ((partitionArgs lookupSample columnsErrOnly partitionWithError).getLast? =
            some (Cell.str "-") ↔
          partitionWithError.ErrorCode = 0)) ∧
      (partitionArgs lookupSample columnsErrOnly partitionWithError).length =
        (detailHeaders columnsErrOnly).length :=
  ⟨rfl, partitionArgs_load_error lookupSample columnsErrOnly partitionWithError rfl⟩

/-! ## Rows and headers have the same length -/

theorem brokerArgs_length (controllerID : Int) (b : MetadataResponseBroker) :
    (brokerArgs controllerID b).length = 3 := by
  unfold brokerArgs
  by_cases h : b.NodeID = controllerID <;> simp [h]

theorem partitionArgs_length (ErrorForCode : Int → Option String) (u : ColumnUse)
    (p : MetadataResponseTopicPartition) :
    (partitionArgs ErrorForCode u p).length = (detailHeaders u).length := by
  unfold partitionArgs detailHeaders
  rcases u with ⟨e, o, r⟩
  cases e <;> cases o <;> cases r <;> cases ErrorForCode p.ErrorCode <;> simp

/-- C20: every row handed to a table has as many cells as the table has
headers.  In `printBrokers` each row has 3 or 4 cells, as many as the header
list; in detailed mode each partition row of a topic, its empty leading cell
included, has as many cells as the header list of the topic, its empty leading
header included; in summary mode each row has the 3 cells of the 3 headers. -/
theorem rows_match_headers (ErrorForCode : Int → Option String) (controllerID : Int)
    (brokers : List MetadataResponseBroker) (t : MetadataResponseTopic) :
    (∀ row ∈ (printBrokersTable controllerID brokers).rows,
        row.length = (printBrokersTable controllerID brokers).headers.length ∧
          (row.length = 3 ∨ row.length = 4)) ∧
      (∀ row ∈ (partitionTable ErrorForCode t).rows,
        row.length = (partitionTable ErrorForCode t).headers.length) ∧
      (summaryRow t).length = ["NAME", "PARTITIONS", "REPLICAS"].length := by
  refine ⟨?_, ?_, rfl⟩
  · intro row hrow
    rw [printBrokersTable_eq] at hrow ⊢
    simp only [List.mem_map] at hrow
    obtain ⟨b, _, hb⟩ := hrow
    rw [← hb, List.length_append, brokerArgs_length]
    cases anyRack (sortSlice brokerLess brokers) <;> simp [rackCells]
  · intro row hrow
    rw [partitionTable_eq] at hrow ⊢
    simp only [List.mem_map] at hrow
    obtain ⟨p, _, hp⟩ := hrow
    rw [← hp]
    exact partitionArgs_length ErrorForCode _ p

end Cluster
